import Mathlib

/-!
Verification of the pepfrag peptide fragmentation library (package
`pepfrag`: `constants.py`, `pepfrag.py`, `ion_generators.py`).

Masses are modelled as exact rationals; Python strings as Lean `String`;
Python exceptions (`IndexError`, `KeyError`, `UnknownModificationSite`) as
an explicit error type threaded through `Except`.
-/

namespace Pepfrag

/-- Mass pair of monoisotopic and average masses (`constants.Mass`). -/
structure Mass where
  mono : ℚ
  avg : ℚ
deriving DecidableEq, Repr

/-- The possible mass types (`constants.MassType`). -/
inductive MassType where
  | mono
  | avg
deriving DecidableEq, Repr

/-- Attribute access `getattr(mass, mass_type.name)` used in
`Peptide.calculate_mass`. -/
def Mass.get : Mass → MassType → ℚ
  | m, .mono => m.mono
  | m, .avg => m.avg

/-- The residue mass table `constants.AA_MASSES`, keyed by single-letter
amino-acid code. -/
def AA_MASSES : List (Char × Mass) :=
  [('G', ⟨57.02146372069, 57.051402191402⟩),
   ('A', ⟨71.03711378515, 71.078019596249⟩),
   ('S', ⟨87.03202840472, 87.077424520567⟩),
   ('P', ⟨97.05276384961, 97.115372897831⟩),
   ('V', ⟨99.06841391407, 99.131254405943⟩),
   ('T', ⟨101.04767846918, 101.104041925414⟩),
   ('C', ⟨103.00918495955, 103.142807002376⟩),
   ('I', ⟨113.08406397853, 113.157871810790⟩),
   ('L', ⟨113.08406397853, 113.157871810790⟩),
   ('N', ⟨114.04292744138, 114.102804382804⟩),
   ('D', ⟨115.02694302429, 115.087565341620⟩),
   ('Q', ⟨128.05857750584, 128.129421787651⟩),
   ('K', ⟨128.09496301519, 128.172515776292⟩),
   ('E', ⟨129.04259308875, 129.114182746467⟩),
   ('M', ⟨131.04048508847, 131.19604181207⟩),
   ('H', ⟨137.05891185847, 137.139515217458⟩),
   ('F', ⟨147.06841391407, 147.174197992883⟩),
   ('R', ⟨156.10111102405, 156.185922199184⟩),
   ('Y', ⟨163.06332853364, 163.173602917201⟩),
   ('W', ⟨186.07931295073, 186.210313751855⟩)]

/-- Fixed mass `FIXED_MASSES["tag"]` (iTRAQ tag). -/
def mTag : ℚ := 304.20536

/-- Fixed mass `FIXED_MASSES["H2O"]`. -/
def mH2O : ℚ := 18.01056468403

/-- Fixed mass `FIXED_MASSES["H"]` (proton). -/
def mH : ℚ := 1.007276466879

/-- Fixed mass `FIXED_MASSES["CO"]`. -/
def mCO : ℚ := 27.99491461957

/-- Fixed mass `FIXED_MASSES["CO2"]`. -/
def mCO2 : ℚ := 43.989830

/-- Fixed mass `FIXED_MASSES["NH3"]`. -/
def mNH3 : ℚ := 17.02654910112

/-- Fixed mass `FIXED_MASSES["N"]`. -/
def mN : ℚ := 14.003074

/-- Fixed mass `FIXED_MASSES["cys_c"]` (carbamidomethylation). -/
def mCysC : ℚ := 57.021464

/-- The fixed-mass table `constants.FIXED_MASSES`.  Lookups with a literal
string key in the source always succeed and are embedded as the named
constants directly; lookups with a caller-supplied key go through
`lookupFM` and may fail (Python `KeyError`). -/
def FIXED_MASSES : List (String × ℚ) :=
  [("tag", mTag), ("H2O", mH2O), ("H", mH), ("CO", mCO), ("CO2", mCO2),
   ("NH3", mNH3), ("N", mN), ("cys_c", mCysC)]

/-- A modification site: a 1-based integer position or a terminal string
(the `site` field of `ModSite`). -/
inductive Site where
  | int (i : Int)
  | str (s : String)
deriving DecidableEq, Repr

/-- The `ModSite` named tuple `(mass, site, mod)` of `pepfrag.py`. -/
structure ModSite where
  mass : ℚ
  site : Site
  mod : String
deriving DecidableEq, Repr

/-- The `PeptideMass` named tuple `(nterm, seq, cterm)` of `pepfrag.py`:
`nterm`/`cterm` hold the terminal modification mass or `None`, `seq` holds
the per-residue masses including sited modification masses. -/
structure PeptideMass where
  nterm : Option ℚ
  seq : List ℚ
  cterm : Option ℚ
deriving DecidableEq, Repr

/-- An element of a neutral-loss list as the callers supply it: either a
loss name to resolve against `FIXED_MASSES`, or a `(name, mass)` tuple
(as passed by the repository's own tests). -/
inductive NeutralLoss where
  | name (s : String)
  | pair (s : String) (m : ℚ)
deriving DecidableEq, Repr

/-- The name rendered into a neutral-loss ion label. -/
def NeutralLoss.lossName : NeutralLoss → String
  | .name s => s
  | .pair s _ => s

/-- The Python exceptions the embedded code can raise: `IndexError` from
`site_mod_masses[mod.site - 1]`, `UnknownModificationSite`, `KeyError` on a
residue lookup in `AA_MASSES`, and `KeyError` on a neutral-loss lookup in
`FIXED_MASSES`. -/
inductive PepError where
  | indexError
  | unknownModificationSite
  | unknownResidue (c : Char)
  | unknownNeutralLoss (nl : NeutralLoss)
deriving DecidableEq, Repr

deriving instance DecidableEq for Except

/-- Site-string normalization `mod.site.lower().replace("-", "")` from
`Peptide.calculate_mass`. -/
def normSite (s : String) : String :=
  ⟨(s.data.map Char.toLower).filter (fun ch => ch ≠ '-')⟩

/-- Python list indexing with assignment, `l[i] += x`: negative indices
wrap from the end; an index out of `[-len, len)` raises `IndexError`
(modelled as `none`). -/
def pyAddAt (l : List ℚ) (i : Int) (x : ℚ) : Option (List ℚ) :=
  let n : Int := l.length
  let j : Int := if i < 0 then n + i else i
  if 0 ≤ j ∧ j < n then some (l.set j.toNat (l.getD j.toNat 0 + x)) else none

/-- Loop state of the modification loop in `Peptide.calculate_mass`:
`nterm_mass`, `cterm_mass`, and `site_mod_masses`. -/
structure FoldSt where
  nterm : Option ℚ
  cterm : Option ℚ
  arr : List ℚ
deriving DecidableEq, Repr

/-- One iteration of the modification loop in `Peptide.calculate_mass`
(lines 212-222): an integer site indexes `site_mod_masses` at
`mod.site - 1`; a string site is normalized and assigned to the matching
terminal slot (overwriting any previous value); any other string raises
`UnknownModificationSite`. -/
def applyMod (st : FoldSt) (m : ModSite) : Except PepError FoldSt :=
  match m.site with
  | .int i =>
      match pyAddAt st.arr (i - 1) m.mass with
      | some arr2 => .ok { st with arr := arr2 }
      | none => .error .indexError
  | .str s =>
      let site := normSite s
      if site = "cterm" then .ok { st with cterm := some m.mass }
      else if site = "nterm" then .ok { st with nterm := some m.mass }
      else .error .unknownModificationSite

/-- The full modification loop of `Peptide.calculate_mass`. -/
def foldMods (st : FoldSt) : List ModSite → Except PepError FoldSt
  | [] => .ok st
  | m :: rest =>
      match applyMod st m with
      | .ok st2 => foldMods st2 rest
      | .error e => .error e

/-- Residue mass lookup `getattr(AA_MASSES[aa], self.mass_type.name)`;
a missing residue raises `KeyError` (`unknownResidue`). -/
def lookupAA : List (Char × Mass) → Char → Option Mass
  | [], _ => none
  | (k, v) :: rest, c => if c = k then some v else lookupAA rest c

def residueMass (mt : MassType) (c : Char) : Except PepError ℚ :=
  match lookupAA AA_MASSES c with
  | some m => .ok (m.get mt)
  | none => .error (.unknownResidue c)

/-- The `seq_masses` comprehension of `Peptide.calculate_mass` (lines
224-225): each residue's table mass plus its `site_mod_masses` entry,
failing at the first residue absent from the table. -/
def seqMasses (mt : MassType) : List Char → List ℚ → Except PepError (List ℚ)
  | [], _ => .ok []
  | c :: cs, sm =>
      match residueMass mt c with
      | .error e => .error e
      | .ok r =>
          match seqMasses mt cs sm.tail with
          | .error e => .error e
          | .ok rest => .ok ((r + sm.headD 0) :: rest)

/-- `Peptide.calculate_mass`: resolves a sequence plus modification list
into a `PeptideMass`. -/
def calculateMass (seq : List Char) (mods : List ModSite) (mt : MassType) :
    Except PepError PeptideMass :=
  match foldMods ⟨none, none, List.replicate seq.length 0⟩ mods with
  | .error e => .error e
  | .ok st =>
      match seqMasses mt seq st.arr with
      | .error e => .error e
      | .ok sm => .ok ⟨st.nterm, sm, st.cterm⟩

/-- The `Peptide.mass` property: `sum(pep_mass.seq) + FIXED_MASSES["H2O"]`,
plus `pep_mass.nterm` when not `None`.  (The source adds no `cterm`
term.) -/
def massOf (seq : List Char) (mods : List ModSite) (mt : MassType) :
    Except PepError ℚ :=
  match calculateMass seq mods mt with
  | .error e => .error e
  | .ok pm =>
      .ok (pm.seq.sum + mH2O + (match pm.nterm with | some v => v | none => 0))

/-- `Peptide._ion_masses`: the b-type (N-terminal) and y-type (C-terminal)
cumulative-sum series. -/
def ionMasses (pm : PeptideMass) : List ℚ × List ℚ :=
  let n := pm.seq.length
  let yBase := match pm.cterm with | some v => v | none => mH2O
  let rev := pm.seq.reverse
  let yIons := (List.range n).map (fun ii => yBase + (rev.take (ii + 1)).sum)
  let bBase := match pm.nterm with | some v => v | none => 0
  let bIons := (List.range n).map (fun ii => bBase + (pm.seq.take (ii + 1)).sum)
  (bIons, yIons)

/-- The `Ion` named tuple `(mass, label, pos)` of `ion_generators.py`. -/
structure Ion where
  mass : ℚ
  label : String
  pos : Nat
deriving DecidableEq, Repr

/-- Python `label.replace("+", f"{charge}+")` from `_charge_ions`: every
occurrence of the character `+` is replaced by the decimal charge followed
by `+`. -/
def pyReplacePlus (charge : Nat) (s : String) : String :=
  ⟨s.data.flatMap (fun ch =>
    if ch = '+' then (Nat.repr charge).data ++ ['+'] else [ch])⟩

/-- `_charge_ions` (lines 447-467): keeps only ions whose position passes
the empirical rule `pos >= 2 * charge - 1`, shifting the mass by
`(charge - 1)` protons and dividing by the charge, and relabelling. -/
def chargeIons (ions : List Ion) (charge : Nat) : List Ion :=
  ions.filterMap (fun i =>
    if 2 * (charge : Int) - 1 ≤ (i.pos : Int) then
      some ⟨(i.mass + mH * ((charge : ℚ) - 1)) / (charge : ℚ),
            pyReplacePlus charge i.label, i.pos⟩
    else none)

/-- The four per-type hooks of the `IonGenerator` template (`fix_mass`,
`base_ions`, `radical`, `neutral_losses`). -/
structure GenHooks where
  fixMass : ℚ → ℚ
  baseIons : ℚ → Nat → List Ion
  radicalIons : ℚ → Nat → List Ion
  lossIons : ℚ → Nat → List NeutralLoss → Except PepError (List Ion)

/-- Neutral-loss mass resolution `FIXED_MASSES[nl]`: a string name is
looked up in the table, failing with `KeyError` when absent; a
`(name, mass)` tuple is not a key of the string-keyed dict and always
raises `KeyError`. -/
def lookupFM : List (String × ℚ) → String → Option ℚ
  | [], _ => none
  | (k, v) :: rest, s => if s = k then some v else lookupFM rest s

def lossMass : NeutralLoss → Except PepError ℚ
  | .name s =>
      match lookupFM FIXED_MASSES s with
      | some v => .ok v
      | none => .error (.unknownNeutralLoss (.name s))
  | .pair s m => .error (.unknownNeutralLoss (.pair s m))

/-- The `neutral_losses` override shared (up to the series letter) by the
b/y/a/c/z generators: one ion per configured loss at `mass - lossMass`,
labelled `[<letter><pos+1>-<name>][+]`. -/
def seriesLossIons (letter : String) (mass : ℚ) (pos : Nat) :
    List NeutralLoss → Except PepError (List Ion)
  | [] => .ok []
  | nl :: rest =>
      match lossMass nl with
      | .error e => .error e
      | .ok lm =>
          match seriesLossIons letter mass pos rest with
          | .error e => .error e
          | .ok tail =>
              .ok (Ion.mk (mass - lm)
                    ("[" ++ letter ++ Nat.repr (pos + 1) ++ "-" ++
                      nl.lossName ++ "][+]")
                    (pos + 1) :: tail)

/-- Hooks of `BIonGenerator`. -/
def bHooks : GenHooks where
  fixMass m := m + mH
  baseIons m pos := [⟨m, "b" ++ Nat.repr (pos + 1) ++ "[+]", pos + 1⟩]
  radicalIons m pos := [⟨m, "[b" ++ Nat.repr (pos + 1) ++ "-H][•+]", pos + 1⟩]
  lossIons := seriesLossIons "b"

/-- Hooks of `YIonGenerator` (its `radical` override returns no ions). -/
def yHooks : GenHooks where
  fixMass m := m + mH
  baseIons m pos := [⟨m, "y" ++ Nat.repr (pos + 1) ++ "[+]", pos + 1⟩]
  radicalIons _ _ := []
  lossIons := seriesLossIons "y"

/-- Hooks of `AIonGenerator`. -/
def aHooks : GenHooks where
  fixMass m := m + mH - mCO
  baseIons m pos := [⟨m, "a" ++ Nat.repr (pos + 1) ++ "[+]", pos + 1⟩]
  radicalIons m pos :=
    [⟨m - mH, "[a" ++ Nat.repr (pos + 1) ++ "-H][•+]", pos + 1⟩,
     ⟨m + mH, "[a" ++ Nat.repr (pos + 1) ++ "+H][•+]", pos + 1⟩]
  lossIons := seriesLossIons "a"

/-- Hooks of `CIonGenerator`. -/
def cHooks : GenHooks where
  fixMass m := m + mN + 3 * mH
  baseIons m pos := [⟨m, "c" ++ Nat.repr (pos + 1) ++ "[+]", pos + 1⟩]
  radicalIons m pos := [⟨m + 2 * mH, "[c" ++ Nat.repr (pos + 1) ++ "+2H][•+]", pos + 1⟩]
  lossIons := seriesLossIons "c"

/-- Hooks of `ZIonGenerator`. -/
def zHooks : GenHooks where
  fixMass m := m - mN - 3 * mH
  baseIons m pos := [⟨m, "z" ++ Nat.repr (pos + 1) ++ "[+]", pos + 1⟩]
  radicalIons m pos := [⟨m - mH, "[z" ++ Nat.repr (pos + 1) ++ "-H][•+]", pos + 1⟩]
  lossIons := seriesLossIons "z"

/-- Hooks of `ImmoniumIonGenerator`: every base ion reports position `0`;
the label marks residues coinciding with an integer modification site; the
base-class `neutral_losses` is not overridden and yields no ions. -/
def immHooks (sequence : List Char) (modSites : List Int) : GenHooks where
  fixMass m := m - mCO + mH
  baseIons m pos :=
    [⟨m, "imm(" ++ String.singleton (sequence.getD pos '?') ++
         (if (pos : Int) ∈ modSites then "*" else "") ++ ")", 0⟩]
  radicalIons _ _ := []
  lossIons _ _ _ := .ok []

/-- The position loop of `IonGenerator.generate` (lines 91-101): for each
input mass, the fixed mass, the base ions, the radical ions when the flag
is set, and the neutral-loss ions when a loss list was supplied. -/
def collectIons (h : GenHooks) (radical : Bool)
    (nls : Option (List NeutralLoss)) : Nat → List ℚ → Except PepError (List Ion)
  | _, [] => .ok []
  | pos, m :: rest =>
      let im := h.fixMass m
      match (match nls with
             | none => (.ok [] : Except PepError (List Ion))
             | some ls => h.lossIons im pos ls) with
      | .error e => .error e
      | .ok lossPart =>
          match collectIons h radical nls (pos + 1) rest with
          | .error e => .error e
          | .ok tail =>
              .ok (h.baseIons im pos ++
                   (if radical then h.radicalIons im pos else []) ++
                   lossPart ++ tail)

/-- `IonGenerator.generate` (lines 91-107): the singly-charged pass
followed by charge expansion for every target charge from 2 up to the
peptide charge. -/
def generateTemplate (h : GenHooks) (masses : List ℚ) (charge : Nat)
    (nls : Option (List NeutralLoss)) (radical : Bool) :
    Except PepError (List Ion) :=
  match collectIons h radical nls 0 masses with
  | .error e => .error e
  | .ok ions =>
      .ok (ions ++
           (List.range (charge - 1)).flatMap (fun i => chargeIons ions (i + 2)))

/-- `BIonGenerator.generate`: default losses H2O, NH3, CO; the final
(full-length) mass is dropped before the template runs. -/
def bGenerate (bMasses : List ℚ) (charge : Nat)
    (nls : Option (List NeutralLoss)) (radical : Bool) : Except PepError (List Ion) :=
  let nls := match nls with
    | none => some [.name "H2O", .name "NH3", .name "CO"]
    | some l => some l
  generateTemplate bHooks bMasses.dropLast charge nls radical

/-- `YIonGenerator.generate`: default losses NH3, H2O; final mass dropped. -/
def yGenerate (yMasses : List ℚ) (charge : Nat)
    (nls : Option (List NeutralLoss)) (radical : Bool) : Except PepError (List Ion) :=
  let nls := match nls with
    | none => some [.name "NH3", .name "H2O"]
    | some l => some l
  generateTemplate yHooks yMasses.dropLast charge nls radical

/-- `AIonGenerator.generate`: no default losses (a `None` loss list is
passed through, so the template skips loss ions); final mass dropped. -/
def aGenerate (bMasses : List ℚ) (charge : Nat)
    (nls : Option (List NeutralLoss)) (radical : Bool) : Except PepError (List Ion) :=
  generateTemplate aHooks bMasses.dropLast charge nls radical

/-- `CIonGenerator.generate`: no default losses; final mass dropped. -/
def cGenerate (bMasses : List ℚ) (charge : Nat)
    (nls : Option (List NeutralLoss)) (radical : Bool) : Except PepError (List Ion) :=
  generateTemplate cHooks bMasses.dropLast charge nls radical

/-- `ZIonGenerator.generate`: no default losses and no truncation. -/
def zGenerate (yMasses : List ℚ) (charge : Nat)
    (nls : Option (List NeutralLoss)) (radical : Bool) : Except PepError (List Ion) :=
  generateTemplate zHooks yMasses charge nls radical

/-- `ImmoniumIonGenerator.generate`: default loss list empty; the integer
modification sites (0-based) are collected for the label marking. -/
def immGenerate (seqMassList : List ℚ) (charge : Nat) (sequence : List Char)
    (mods : List ModSite) (nls : Option (List NeutralLoss)) (radical : Bool) :
    Except PepError (List Ion) :=
  let nls := match nls with | none => some [] | some l => some l
  let modSites := mods.filterMap (fun m =>
    match m.site with | .int i => some (i - 1) | .str _ => none)
  generateTemplate (immHooks sequence modSites) seqMassList charge nls radical

/-- The iTRAQ8plex test of `PrecursorIonGenerator.generate` (lines
224-225): some modification is named `iTRAQ8plex` and its site is exactly
the string `cterm` or `nterm`. -/
def hasTermIT8 (mods : List ModSite) : Bool :=
  mods.any (fun ms => ms.mod = "iTRAQ8plex" &&
    (ms.site = Site.str "cterm" || ms.site = Site.str "nterm"))

/-- The charge-state symbol of `PrecursorIonGenerator.generate` (line
211). -/
def chargeSymbol (radical : Bool) (cs : Nat) : String :=
  (if radical then "•" else "") ++ (if cs > 1 then Nat.repr cs else "") ++ "+"

/-- The neutral-loss comprehension of `PrecursorIonGenerator.generate`
(lines 219-222). -/
def precursorLossIons (mass : ℚ) (cs : Nat) (sym : String) (seqLen : Nat) :
    List NeutralLoss → Except PepError (List Ion)
  | [] => .ok []
  | nl :: rest =>
      match lossMass nl with
      | .error e => .error e
      | .ok lm =>
          match precursorLossIons mass cs sym seqLen rest with
          | .error e => .error e
          | .ok tail =>
              .ok (Ion.mk ((mass - lm) / (cs : ℚ) + mH)
                    ("[M-" ++ nl.lossName ++ "][" ++ sym ++ "]") seqLen :: tail)

/-- One iteration (charge state `cs`) of the loop in
`PrecursorIonGenerator.generate`: `[M+H]`, the radical `M` ion, the
neutral-loss ions, and the `M-iT8` ion when a terminal iTRAQ8plex
modification is present. -/
def precursorBlock (mass : ℚ) (seqLen : Nat) (mods : List ModSite)
    (nls : List NeutralLoss) (radical : Bool) (cs : Nat) :
    Except PepError (List Ion) :=
  let sym := chargeSymbol radical cs
  match precursorLossIons mass cs sym seqLen nls with
  | .error e => .error e
  | .ok lossPart =>
      .ok ([⟨mass / (cs : ℚ) + mH, "[M+H][" ++ sym ++ "]", seqLen⟩] ++
           (if radical then [⟨mass / (cs : ℚ), "M[" ++ sym ++ "]", seqLen⟩]
            else []) ++
           lossPart ++
           (if hasTermIT8 mods then
              [⟨(mass - mTag) / (cs : ℚ) + mH, "M-iT8[" ++ sym ++ "]", seqLen⟩]
            else []))

/-- The charge-state loop of `PrecursorIonGenerator.generate`, iterating
`cs` upward with the given number of remaining iterations. -/
def precursorGo (mass : ℚ) (seqLen : Nat) (mods : List ModSite)
    (nls : List NeutralLoss) (radical : Bool) : Nat → Nat → Except PepError (List Ion)
  | _, 0 => .ok []
  | cs, n + 1 =>
      match precursorBlock mass seqLen mods nls radical cs with
      | .error e => .error e
      | .ok blk =>
          match precursorGo mass seqLen mods nls radical (cs + 1) n with
          | .error e => .error e
          | .ok rest => .ok (blk ++ rest)

/-- `PrecursorIonGenerator.generate`: default losses H2O, NH3, CO2; one
block per charge state from 1 to the peptide charge. -/
def precursorGenerate (mass : ℚ) (charge : Nat) (seqLen : Nat)
    (mods : List ModSite) (nls : Option (List NeutralLoss)) (radical : Bool) :
    Except PepError (List Ion) :=
  let nls := match nls with
    | none => [NeutralLoss.name "H2O", .name "NH3", .name "CO2"]
    | some l => l
  precursorGo mass seqLen mods nls radical 1 charge

/-- The `IonType` enumeration of `ion_generators.py` (no x-ion case
exists in this version). -/
inductive IonType where
  | precursor
  | imm
  | b
  | y
  | a
  | c
  | z
deriving DecidableEq, Repr

/-- Dispatch of `Peptide._fragment` (lines 262-284): the precursor
generator receives the total mass and the radical flag; the immonium
generator receives the per-residue masses and sequence (and no radical
flag); b/a/c run on the b-series, y/z on the y-series. -/
def runGenerator (it : IonType) (mass : ℚ) (pm : PeptideMass)
    (bMasses yMasses : List ℚ) (seq : List Char) (charge : Nat)
    (mods : List ModSite) (radical : Bool) (nls : Option (List NeutralLoss)) :
    Except PepError (List Ion) :=
  match it with
  | .precursor => precursorGenerate mass charge seq.length mods nls radical
  | .imm => immGenerate pm.seq charge seq mods nls false
  | .b => bGenerate bMasses charge nls radical
  | .y => yGenerate yMasses charge nls radical
  | .a => aGenerate bMasses charge nls radical
  | .c => cGenerate bMasses charge nls radical
  | .z => zGenerate yMasses charge nls radical

/-- The `Peptide` object state: the three managed fields, the mass type,
the radical flag, and the single-slot fragment-ion cache. -/
structure Peptide where
  seq : List Char
  charge : Nat
  mods : List ModSite
  massType : MassType
  radical : Bool
  fragment_ions : Option (List Ion)
deriving DecidableEq, Repr

/-- The `ion_types` argument of `Peptide.fragment`: each requested ion
type with its `neutral_losses` keyword (or none), in insertion order. -/
abbrev IonConfig : Type := List (IonType × Option (List NeutralLoss))

/-- The loop over requested ion types in `Peptide._fragment`. -/
def fragLoop (mass : ℚ) (pm : PeptideMass) (bMasses yMasses : List ℚ)
    (seq : List Char) (charge : Nat) (mods : List ModSite) (radical : Bool) :
    IonConfig → Except PepError (List Ion)
  | [] => .ok []
  | (it, nls) :: rest =>
      match runGenerator it mass pm bMasses yMasses seq charge mods radical nls with
      | .error e => .error e
      | .ok ions =>
          match fragLoop mass pm bMasses yMasses seq charge mods radical rest with
          | .error e => .error e
          | .ok tail => .ok (ions ++ tail)

/-- `Peptide._fragment`: total mass, peptide mass, the two cumulative-sum
series, then the generator loop. -/
def fragmentCalc (p : Peptide) (cfg : IonConfig) : Except PepError (List Ion) :=
  match massOf p.seq p.mods p.massType with
  | .error e => .error e
  | .ok mass =>
      match calculateMass p.seq p.mods p.massType with
      | .error e => .error e
      | .ok pm =>
          let by2 := ionMasses pm
          fragLoop mass pm by2.1 by2.2 p.seq p.charge p.mods p.radical cfg

/-- `Peptide.fragment`: serves the cached list unless it is absent or a
forced recomputation is requested; a successful recomputation fills the
cache, a raised exception leaves it unchanged. -/
def fragment (p : Peptide) (cfg : IonConfig) (force : Bool) :
    Except PepError (List Ion) × Peptide :=
  match p.fragment_ions, force with
  | some ions, false => (.ok ions, p)
  | _, _ =>
      match fragmentCalc p cfg with
      | .ok ions => (.ok ions, { p with fragment_ions := some ions })
      | .error e => (.error e, p)

/-- `Peptide.clean_fragment_ions`. -/
def cleanFragmentIons (p : Peptide) : Peptide := { p with fragment_ions := none }

/-- The `seq` setter: clears the cache, then assigns. -/
def setSeq (p : Peptide) (s : List Char) : Peptide :=
  { cleanFragmentIons p with seq := s }

/-- The `charge` setter: clears the cache, then assigns. -/
def setCharge (p : Peptide) (c : Nat) : Peptide :=
  { cleanFragmentIons p with charge := c }

/-- The `mods` setter: clears the cache, then assigns. -/
def setMods (p : Peptide) (ms : List ModSite) : Peptide :=
  { cleanFragmentIons p with mods := ms }

/-!  Specification-side definitions, used to state the claims. -/

/-- Charge expansion as §4.3 of the specification words it: keep exactly
the ions with `pos ≥ 2 · targetCharge − 1`, mapping each to
`((mass + (targetCharge − 1) · protonMass) / targetCharge,
label with "+" replaced by "(targetCharge)+", pos)`. -/
def chargeIonsSpec (ions : List Ion) (charge : Nat) : List Ion :=
  (ions.filter (fun i => decide (2 * charge - 1 ≤ i.pos))).map
    (fun i => ⟨(i.mass + ((charge : ℚ) - 1) * mH) / (charge : ℚ),
               pyReplacePlus charge i.label, i.pos⟩)

/-- Last-assignment semantics: the value of a slot after a sequence of
assignments, given its starting value. -/
def lastAssigned : List ℚ → Option ℚ → Option ℚ
  | [], d => d
  | x :: r, _ => lastAssigned r (some x)

/-- The mass a modification assigns to the N-terminal slot, when its site
normalizes to `nterm`. -/
def ntermMass? (m : ModSite) : Option ℚ :=
  match m.site with
  | .str s => if normSite s = "nterm" then some m.mass else none
  | .int _ => none

/-- The mass a modification assigns to the C-terminal slot, when its site
normalizes to `cterm`. -/
def ctermMass? (m : ModSite) : Option ℚ :=
  match m.site with
  | .str s => if normSite s = "cterm" then some m.mass else none
  | .int _ => none

/-- A modification site the specification calls valid: an integer site
within `[1, len(sequence)]`, or a string normalizing to a terminus. -/
def modSiteValid (seq : List Char) (m : ModSite) : Bool :=
  match m.site with
  | .int i => decide (1 ≤ i) && decide (i ≤ (seq.length : Int))
  | .str s => decide (normSite s = "nterm") || decide (normSite s = "cterm")

/-- The singly-charged a-ion base series: one ion per input mass, at
`mass + H − CO`, position ascending from the given start. -/
def aBaseList : Nat → List ℚ → List Ion
  | _, [] => []
  | pos, m :: rest =>
      ⟨m + mH - mCO, "a" ++ Nat.repr (pos + 1) ++ "[+]", pos + 1⟩ ::
        aBaseList (pos + 1) rest

/-- The singly-charged b-ion base series: one ion per input mass, at
`mass + H`, position ascending from the given start. -/
def bBaseList : Nat → List ℚ → List Ion
  | _, [] => []
  | pos, m :: rest =>
      ⟨m + mH, "b" ++ Nat.repr (pos + 1) ++ "[+]", pos + 1⟩ ::
        bBaseList (pos + 1) rest

/-!  Theorems settling the claims. -/

/-- C1: the claim says an out-of-range integer modification site is
accepted without error and contributes no mass.  The code contradicts it
(and its own test `test_mod_site_out_of_range`): on `Peptide("ALPK", 2,
[ModSite(1000.0, 100, "TestMod")])` the unguarded write
`site_mod_masses[mod.site - 1] += mod.mass` raises `IndexError`, and a
site of `0` wraps to the final residue and silently adds its mass there,
changing the total mass. -/
theorem c1_out_of_range_site_raises_or_adds :
    calculateMass "ALPK".data [⟨1000, .int 100, "TestMod"⟩] .mono
      = .error .indexError ∧
    massOf "AAA".data [⟨5, .int 0, "TestMod"⟩] .mono
      ≠ massOf "AAA".data [] .mono := by
  constructor
  · simp [calculateMass, foldMods, applyMod, pyAddAt]
  · simp [massOf, calculateMass, foldMods, applyMod, pyAddAt, seqMasses,
          residueMass, lookupAA, AA_MASSES, Mass.get, mH2O]

/-- C2: the claim describes the `AAAK`, charge 2 scenario of
`test_neutral_losses` (b ions with losses `NH3` and `("testLoss", 9.0)`
plus immonium ions) and expects `b3[2+]` together with doubly-charged
position-3/position-4 immonium ions.  The code cannot produce that
result: looking the tuple `("testLoss", 9.0)` up in the string-keyed
`FIXED_MASSES` raises `KeyError` before any ion is returned, and every
immonium base ion carries position `0`, so the `pos ≥ 2·charge − 1`
filter removes all immonium ions from every multiply-charged series. -/
theorem c2_charge_filter_scenario_fails_on_code :
    fragmentCalc ⟨"AAAK".data, 2, [], .mono, false, none⟩
      [(.b, some [.name "NH3", .pair "testLoss" 9]),
       (.imm, some [.pair "testLoss3" 2.04, .name "H2O"])]
      = .error (.unknownNeutralLoss (.pair "testLoss" 9)) ∧
    immGenerate [71.03711378515, 71.03711378515, 71.03711378515,
                 128.09496301519] 2 "AAAK".data []
      (some [.pair "testLoss3" 2.04, .name "H2O"]) false
      = .ok [⟨44.049475632459, "imm(A)", 0⟩, ⟨44.049475632459, "imm(A)", 0⟩,
             ⟨44.049475632459, "imm(A)", 0⟩,
             ⟨101.107324862499, "imm(K)", 0⟩] := by
  constructor
  · simp [fragmentCalc, massOf, calculateMass, foldMods, seqMasses,
          residueMass, lookupAA, AA_MASSES, Mass.get, ionMasses, fragLoop,
          runGenerator, bGenerate, generateTemplate, collectIons, bHooks,
          seriesLossIons, lossMass, lookupFM, FIXED_MASSES]
  · simp [immGenerate, generateTemplate, collectIons, immHooks, chargeIons,
          mCO, mH]
    norm_num
    decide

/-- C3: the claim says the total mass is the sum of every slot of the
positional mass array plus the water mass, including a C-terminal
modification's slot.  The code contradicts it (and its own test
`test_peptide_mass_mono_cterm_mod`): the `mass` property adds only the
residue slots, the water mass, and the N-terminal slot, so a peptide with
a C-terminal modification gets the same total mass as the unmodified
peptide even though `calculate_mass` records the C-terminal slot. -/
theorem c3_cterm_slot_excluded_from_total_mass :
    massOf "AAA".data [⟨21.981943, .str "cterm", "Cation:Na"⟩] .mono
      = massOf "AAA".data [] .mono ∧
    calculateMass "AAA".data [⟨21.981943, .str "cterm", "Cation:Na"⟩] .mono
      = .ok ⟨none, [71.03711378515, 71.03711378515, 71.03711378515],
             some 21.981943⟩ ∧
    massOf "AAA".data [⟨21.981943, .str "cterm", "Cation:Na"⟩] .mono
      ≠ .ok (71.03711378515 * 3 + 21.981943 + mH2O) := by
  refine ⟨?_, ?_, ?_⟩
  · simp [massOf, calculateMass, foldMods, applyMod, normSite, seqMasses,
          residueMass, lookupAA, AA_MASSES, Mass.get]
  · simp [calculateMass, foldMods, applyMod, normSite, seqMasses,
          residueMass, lookupAA, AA_MASSES, Mass.get]
  · simp [massOf, calculateMass, foldMods, applyMod, normSite, seqMasses,
          residueMass, lookupAA, AA_MASSES, Mass.get, mH2O]
    norm_num

/-- C4 counterexample: the claim says modifications sited at the same
terminus accumulate additively.  With two N-terminal modifications of
masses 1 and 2, `calculate_mass` leaves the N-terminal slot at 2 (the
last assignment), not at 1 + 2. -/
theorem c4_counterexample_terminal_not_additive :
    calculateMass "AAA".data
      [⟨1, .str "nterm", "m1"⟩, ⟨2, .str "nterm", "m2"⟩] .mono
      = .ok ⟨some 2, [71.03711378515, 71.03711378515, 71.03711378515], none⟩ ∧
    some (2 : ℚ) ≠ some ((1 : ℚ) + 2) := by
  constructor
  · simp [calculateMass, foldMods, applyMod, normSite, seqMasses,
          residueMass, lookupAA, AA_MASSES, Mass.get]
  · norm_num

/-- Helper: one loop iteration either leaves a terminal slot unchanged or
overwrites it with the modification's mass, as `ntermMass?`/`ctermMass?`
describe. -/
theorem applyMod_terminal (st st1 : FoldSt) (m : ModSite)
    (h : applyMod st m = .ok st1) :
    st1.nterm = (match ntermMass? m with | some v => some v | none => st.nterm) ∧
    st1.cterm = (match ctermMass? m with | some v => some v | none => st.cterm) := by
  rcases hs : m.site with i | s
  · simp only [applyMod, hs] at h
    rcases hp : pyAddAt st.arr (i - 1) m.mass with _ | arr2 <;> rw [hp] at h
    · exact absurd h (by simp)
    · simp only [Except.ok.injEq] at h
      subst h
      simp [ntermMass?, ctermMass?, hs]
  · simp only [applyMod, hs] at h
    by_cases hc : normSite s = "cterm"
    · rw [if_pos hc] at h
      simp only [Except.ok.injEq] at h
      subst h
      have hn : normSite s ≠ "nterm" := by rw [hc]; decide
      simp [ntermMass?, ctermMass?, hs, hc, hn]
    · rw [if_neg hc] at h
      by_cases hn : normSite s = "nterm"
      · rw [if_pos hn] at h
        simp only [Except.ok.injEq] at h
        subst h
        simp [ntermMass?, ctermMass?, hs, hc, hn]
      · rw [if_neg hn] at h
        exact absurd h (by simp)

/-- Helper: over the whole modification loop, each terminal slot holds the
mass of the last modification assigned to it. -/
theorem foldMods_terminal (mods : List ModSite) : ∀ st st2 : FoldSt,
    foldMods st mods = .ok st2 →
    st2.nterm = lastAssigned (mods.filterMap ntermMass?) st.nterm ∧
    st2.cterm = lastAssigned (mods.filterMap ctermMass?) st.cterm := by
  induction mods with
  | nil =>
      intro st st2 h
      simp only [foldMods, Except.ok.injEq] at h
      subst h
      simp [lastAssigned]
  | cons m rest ih =>
      intro st st2 h
      rw [foldMods] at h
      rcases ha : applyMod st m with e | st1 <;> rw [ha] at h
      · exact absurd h (by simp)
      · obtain ⟨h1, h2⟩ := ih st1 st2 h
        obtain ⟨g1, g2⟩ := applyMod_terminal st st1 m ha
        constructor
        · rw [h1, List.filterMap_cons]
          rcases hn : ntermMass? m with _ | v
          · rw [hn] at g1; simp only at g1; rw [g1]
          · rw [hn] at g1; simp only at g1; simp [lastAssigned, g1]
        · rw [h2, List.filterMap_cons]
          rcases hn : ctermMass? m with _ | v
          · rw [hn] at g2; simp only at g2; rw [g2]
          · rw [hn] at g2; simp only at g2; simp [lastAssigned, g2]

/-- C4 (amended): when several modifications are sited at the same
terminus, each assignment overwrites the previous one, so the terminal
slot of a successful `calculate_mass` equals the mass of the **last**
modification sited at that terminus, not the sum. -/
theorem c4_amended_terminal_slot_last_assignment (seq : List Char)
    (mods : List ModSite) (mt : MassType) (pm : PeptideMass)
    (h : calculateMass seq mods mt = .ok pm) :
    pm.nterm = lastAssigned (mods.filterMap ntermMass?) none ∧
    pm.cterm = lastAssigned (mods.filterMap ctermMass?) none := by
  unfold calculateMass at h
  rcases hf : foldMods ⟨none, none, List.replicate seq.length 0⟩ mods
    with e | st <;> simp only [hf] at h
  · exact absurd h (by simp)
  · rcases hs : seqMasses mt seq st.arr with e | sm <;> simp only [hs] at h
    · exact absurd h (by simp)
    · simp only [Except.ok.injEq] at h
      subst h
      exact foldMods_terminal mods _ st hf

/-- C4 witness: the amended statement evaluated on the two-modification
counterexample input. -/
theorem c4_amended_witness :
    (⟨some 2, [71.03711378515, 71.03711378515, 71.03711378515], none⟩ :
        PeptideMass).nterm
      = lastAssigned
          (([⟨1, .str "nterm", "m1"⟩, ⟨2, .str "nterm", "m2"⟩] :
              List ModSite).filterMap ntermMass?) none ∧
    (⟨some 2, [71.03711378515, 71.03711378515, 71.03711378515], none⟩ :
        PeptideMass).cterm
      = lastAssigned
          (([⟨1, .str "nterm", "m1"⟩, ⟨2, .str "nterm", "m2"⟩] :
              List ModSite).filterMap ctermMass?) none :=
  c4_amended_terminal_slot_last_assignment "AAA".data
    [⟨1, .str "nterm", "m1"⟩, ⟨2, .str "nterm", "m2"⟩] .mono _
    (by simp [calculateMass, foldMods, applyMod, normSite, seqMasses,
              residueMass, lookupAA, AA_MASSES, Mass.get])

/-- C5: charge expansion keeps exactly the ions with
`pos ≥ 2 · targetCharge − 1`, maps each to
`((mass + (targetCharge − 1) · protonMass) / targetCharge`, label with
`+` replaced by the charged form, same position), and produces nothing
else: `_charge_ions` equals the specification's filter-then-map. -/
theorem c5_charge_expansion_filter_map (ions : List Ion) (charge : Nat)
    (h2 : 2 ≤ charge) :
    chargeIons ions charge = chargeIonsSpec ions charge := by
  induction ions with
  | nil => rfl
  | cons i rest ih =>
      simp only [chargeIons, chargeIonsSpec] at ih ⊢
      rw [List.filterMap_cons, List.filter_cons]
      by_cases hp : 2 * charge - 1 ≤ i.pos
      · have hpi : 2 * (charge : Int) - 1 ≤ (i.pos : Int) := by omega
        rw [if_pos hpi, if_pos (by simpa using hp), List.map_cons, ih,
            mul_comm mH ((charge : ℚ) - 1)]
      · have hpi : ¬ (2 * (charge : Int) - 1 ≤ (i.pos : Int)) := by omega
        rw [if_neg hpi, if_neg (by simpa using hp), ih]

/-- C5 witness: the refinement applied at charge 2 to a two-ion list, one
ion passing the position filter and one dropped. -/
theorem c5_witness :
    chargeIons [⟨10, "b3[+]", 3⟩, ⟨5, "b1[+]", 1⟩] 2
      = chargeIonsSpec [⟨10, "b3[+]", 3⟩, ⟨5, "b1[+]", 1⟩] 2 :=
  c5_charge_expansion_filter_map _ 2 (by norm_num)

/-- Helper: with an empty cache, `fragment` returns whatever `_fragment`
computes (result or exception). -/
theorem fragment_uncached (p : Peptide) (cfg : IonConfig)
    (h : p.fragment_ions = none) :
    (fragment p cfg false).1 = fragmentCalc p cfg := by
  unfold fragment
  rw [h]
  rcases hf : fragmentCalc p cfg with e | ions <;> simp [hf]

/-- C9: each of the three managed setters (`seq`, `charge`, `mods`) first
calls `clean_fragment_ions`, so the cache is `None` after the assignment
and the next `fragment(..., force=False)` call recomputes through
`_fragment` instead of serving a stale result. -/
theorem c9_mutation_clears_cache_and_recomputes (p : Peptide) (s : List Char)
    (c : Nat) (ms : List ModSite) (cfg : IonConfig) :
    (setSeq p s).fragment_ions = none ∧
    (setCharge p c).fragment_ions = none ∧
    (setMods p ms).fragment_ions = none ∧
    (fragment (setSeq p s) cfg false).1 = fragmentCalc (setSeq p s) cfg ∧
    (fragment (setCharge p c) cfg false).1 = fragmentCalc (setCharge p c) cfg ∧
    (fragment (setMods p ms) cfg false).1 = fragmentCalc (setMods p ms) cfg :=
  ⟨rfl, rfl, rfl, fragment_uncached _ _ rfl, fragment_uncached _ _ rfl,
   fragment_uncached _ _ rfl⟩

/-- C10: after a successful `fragment` call, any further call with
`force=False` returns the identical cached list and leaves the peptide
unchanged, whatever ion-type configuration is passed. -/
theorem c10_cached_result_ignores_config (p : Peptide) (cfg1 cfg2 : IonConfig)
    (ions : List Ion) (p2 : Peptide)
    (h : fragment p cfg1 false = (.ok ions, p2)) :
    fragment p2 cfg2 false = (.ok ions, p2) := by
  unfold fragment at h
  rcases hc : p.fragment_ions with _ | l
  · rw [hc] at h
    rcases hf : fragmentCalc p cfg1 with e | l2 <;> simp only [hf] at h
    · simp at h
    · have h2 : Except.ok l2 = Except.ok (ε := PepError) ions ∧
          { p with fragment_ions := some l2 } = p2 := by
        simpa [Prod.ext_iff] using h
      have hl : l2 = ions := by simpa using h2.1
      subst hl
      rw [← h2.2]
      unfold fragment
      simp
  · rw [hc] at h
    have h2 : Except.ok l = Except.ok (ε := PepError) ions ∧ p = p2 := by
      simpa [Prod.ext_iff] using h
    have hl : l = ions := by simpa using h2.1
    subst hl
    rw [← h2.2]
    unfold fragment
    rw [hc]

/-- C10 witness: a peptide with a cached empty ion list returns that
cached list for a configuration requesting b ions. -/
theorem c10_witness :
    fragment ⟨"AAA".data, 2, [], .mono, false, some []⟩ [(.b, none)] false
      = (.ok [], ⟨"AAA".data, 2, [], .mono, false, some []⟩) :=
  c10_cached_result_ignores_config ⟨"AAA".data, 2, [], .mono, false, some []⟩
    [] [(.b, none)] [] ⟨"AAA".data, 2, [], .mono, false, some []⟩ rfl

/-- Helper: a valid modification is applied without an exception and
keeps the array length. -/
theorem applyMod_valid_ok (seq : List Char) (st : FoldSt) (m : ModSite)
    (hlen : st.arr.length = seq.length) (hv : modSiteValid seq m = true) :
    ∃ st1, applyMod st m = .ok st1 ∧ st1.arr.length = seq.length := by
  rcases hs : m.site with i | s
  · simp only [modSiteValid, hs, Bool.and_eq_true, decide_eq_true_eq] at hv
    have hp : ∃ arr2, pyAddAt st.arr (i - 1) m.mass = some arr2 ∧
        arr2.length = seq.length := by
      simp only [pyAddAt]
      rw [if_neg (show ¬ (i - 1 < 0) by omega)]
      rw [if_pos (show (0 : Int) ≤ i - 1 ∧ i - 1 < (st.arr.length : Int) by omega)]
      exact ⟨_, rfl, by simpa using hlen⟩
    obtain ⟨arr2, hp1, hp2⟩ := hp
    refine ⟨{ st with arr := arr2 }, ?_, hp2⟩
    simp [applyMod, hs, hp1]
  · simp only [modSiteValid, hs, Bool.or_eq_true, decide_eq_true_eq] at hv
    by_cases hc : normSite s = "cterm"
    · refine ⟨{ st with cterm := some m.mass }, ?_, by simpa using hlen⟩
      simp [applyMod, hs, hc]
    · have hn : normSite s = "nterm" := by
        rcases hv with hv | hv
        · exact hv
        · exact absurd hv hc
      refine ⟨{ st with nterm := some m.mass }, ?_, by simpa using hlen⟩
      simp [applyMod, hs, hc, hn]

/-- Helper: the modification loop succeeds when every site is valid. -/
theorem foldMods_valid_ok (seq : List Char) : ∀ (mods : List ModSite) (st : FoldSt),
    st.arr.length = seq.length → mods.all (modSiteValid seq) = true →
    ∃ st2, foldMods st mods = .ok st2 := by
  intro mods
  induction mods with
  | nil => exact fun st _ _ => ⟨st, rfl⟩
  | cons m rest ih =>
      intro st hlen hall
      simp only [List.all_cons, Bool.and_eq_true] at hall
      obtain ⟨st1, h1, hlen1⟩ := applyMod_valid_ok seq st m hlen hall.1
      obtain ⟨st2, h2⟩ := ih st1 hlen1 hall.2
      refine ⟨st2, ?_⟩
      rw [foldMods, h1]
      exact h2

/-- Helper: a sequence containing a residue absent from the table makes
the residue pass fail with `unknownResidue` at its first missing
character. -/
theorem seqMasses_missing (mt : MassType) : ∀ (seq : List Char) (sm : List ℚ),
    (∃ c ∈ seq, lookupAA AA_MASSES c = none) →
    ∃ c ∈ seq, lookupAA AA_MASSES c = none ∧
      seqMasses mt seq sm = .error (.unknownResidue c) := by
  intro seq
  induction seq with
  | nil => intro sm h; simp at h
  | cons c0 cs ih =>
      intro sm h
      rcases hl : lookupAA AA_MASSES c0 with _ | m
      · exact ⟨c0, List.mem_cons_self c0 cs, hl,
               by simp [seqMasses, residueMass, hl]⟩
      · have h2 : ∃ c ∈ cs, lookupAA AA_MASSES c = none := by
          rcases h with ⟨c, hc, hnone⟩
          rcases List.mem_cons.mp hc with rfl | hmem
          · rw [hl] at hnone
            exact absurd hnone (by simp)
          · exact ⟨c, hmem, hnone⟩
        obtain ⟨c, hmem, hnone, heq⟩ := ih sm.tail h2
        refine ⟨c, List.mem_cons_of_mem _ hmem, hnone, ?_⟩
        simp [seqMasses, residueMass, hl, heq]

/-- Helper: when every residue is in the table, the residue pass
succeeds. -/
theorem seqMasses_total (mt : MassType) : ∀ (seq : List Char) (sm : List ℚ),
    (∀ c ∈ seq, (lookupAA AA_MASSES c).isSome) →
    ∃ l, seqMasses mt seq sm = .ok l := by
  intro seq
  induction seq with
  | nil => exact fun sm _ => ⟨[], rfl⟩
  | cons c0 cs ih =>
      intro sm hall
      rcases hl : lookupAA AA_MASSES c0 with _ | m
      · have := hall c0 (List.mem_cons_self c0 cs)
        rw [hl] at this
        exact absurd this (by simp)
      · obtain ⟨l, hrec⟩ := ih sm.tail
          (fun c hc => hall c (List.mem_cons_of_mem _ hc))
        refine ⟨(m.get mt + sm.headD 0) :: l, ?_⟩
        simp [seqMasses, residueMass, hl, hrec]

/-- C7: for a peptide whose modification sites are all valid, a sequence
character absent from the residue mass table makes both `calculate_mass`
and the `mass` property fail with the unknown-residue error and no
partial result, while a fully known sequence yields a `PeptideMass` with
no error. -/
theorem c7_unknown_residue_error (seq : List Char) (mods : List ModSite)
    (mt : MassType) (hmods : mods.all (modSiteValid seq) = true) :
    ((∃ c ∈ seq, lookupAA AA_MASSES c = none) →
       ∃ c ∈ seq, lookupAA AA_MASSES c = none ∧
         calculateMass seq mods mt = .error (.unknownResidue c) ∧
         massOf seq mods mt = .error (.unknownResidue c)) ∧
    ((∀ c ∈ seq, (lookupAA AA_MASSES c).isSome) →
       ∃ pm, calculateMass seq mods mt = .ok pm) := by
  obtain ⟨st, hst⟩ := foldMods_valid_ok seq mods
    ⟨none, none, List.replicate seq.length 0⟩ (by simp) hmods
  constructor
  · intro hmiss
    obtain ⟨c, hmem, hnone, heq⟩ := seqMasses_missing mt seq st.arr hmiss
    refine ⟨c, hmem, hnone, ?_, ?_⟩
    · simp [calculateMass, hst, heq]
    · simp [massOf, calculateMass, hst, heq]
  · intro hall
    obtain ⟨l, hl⟩ := seqMasses_total mt seq st.arr hall
    refine ⟨⟨st.nterm, l, st.cterm⟩, ?_⟩
    simp [calculateMass, hst, hl]

/-- C7 witness: `AUA` with no modifications fails with the
unknown-residue error at `U`. -/
theorem c7_witness :
    ∃ c ∈ "AUA".data, lookupAA AA_MASSES c = none ∧
      calculateMass "AUA".data [] .mono = .error (.unknownResidue c) ∧
      massOf "AUA".data [] .mono = .error (.unknownResidue c) :=
  (c7_unknown_residue_error "AUA".data [] .mono rfl).1
    ⟨'U', by decide, by decide⟩

/-- Helper: the a-generator position loop with no radical flag and no loss
list reduces to the base-ion series. -/
theorem collectIons_a_plain : ∀ (ms : List ℚ) (pos : Nat),
    collectIons aHooks false none pos ms = .ok (aBaseList pos ms) := by
  intro ms
  induction ms with
  | nil => intro pos; rfl
  | cons m rest ih =>
      intro pos
      simp only [collectIons, ih (pos + 1)]
      simp [aHooks, aBaseList]

/-- Helper: the b-generator position loop with no radical flag and an
empty loss list reduces to the base-ion series. -/
theorem collectIons_b_plain : ∀ (ms : List ℚ) (pos : Nat),
    collectIons bHooks false (some []) pos ms = .ok (bBaseList pos ms) := by
  intro ms
  induction ms with
  | nil => intro pos; rfl
  | cons m rest ih =>
      intro pos
      simp only [collectIons, ih (pos + 1)]
      simp [bHooks, bBaseList, seriesLossIons]

/-- Helper: the a-generator at charge 1 emits exactly its base series over
the truncated mass list. -/
theorem aGenerate_charge1 (masses : List ℚ) :
    aGenerate masses 1 none false = .ok (aBaseList 0 masses.dropLast) := by
  simp [aGenerate, generateTemplate, collectIons_a_plain]

/-- Helper: the b-generator at charge 1 with an empty loss list emits
exactly its base series over the truncated mass list. -/
theorem bGenerate_charge1 (masses : List ℚ) :
    bGenerate masses 1 (some []) false = .ok (bBaseList 0 masses.dropLast) := by
  simp [bGenerate, generateTemplate, collectIons_b_plain]

/-- Helper: the a base series has one ion per input mass. -/
theorem aBaseList_length : ∀ (ms : List ℚ) (pos : Nat),
    (aBaseList pos ms).length = ms.length := by
  intro ms
  induction ms with
  | nil => intro pos; rfl
  | cons m rest ih => intro pos; simp [aBaseList, ih]

/-- Helper: the b base series has one ion per input mass. -/
theorem bBaseList_length : ∀ (ms : List ℚ) (pos : Nat),
    (bBaseList pos ms).length = ms.length := by
  intro ms
  induction ms with
  | nil => intro pos; rfl
  | cons m rest ih => intro pos; simp [bBaseList, ih]

/-- Helper: position by position, the a base series sits exactly one CO
below the b base series built from the same masses. -/
theorem base_series_offset : ∀ (ms : List ℚ) (pos i : Nat)
    (hA : i < (aBaseList pos ms).length) (hB : i < (bBaseList pos ms).length),
    ((aBaseList pos ms).get ⟨i, hA⟩).mass
      = ((bBaseList pos ms).get ⟨i, hB⟩).mass - mCO ∧
    ((aBaseList pos ms).get ⟨i, hA⟩).pos
      = ((bBaseList pos ms).get ⟨i, hB⟩).pos := by
  intro ms
  induction ms with
  | nil =>
      intro pos i hA
      simp [aBaseList] at hA
  | cons m rest ih =>
      intro pos i hA hB
      cases i with
      | zero => exact ⟨rfl, rfl⟩
      | succ j =>
          have hA2 : j < (aBaseList (pos + 1) rest).length := by
            simpa [aBaseList] using hA
          have hB2 : j < (bBaseList (pos + 1) rest).length := by
            simpa [bBaseList] using hB
          have hrec := ih (pos + 1) j hA2 hB2
          simpa [aBaseList, bBaseList] using hrec

/-- C8: the a-ion and b-ion generators run on the same N-terminal
cumulative-sum series, and at every shared position the a-ion mass equals
the b-ion mass minus the CO mass, which is within 0.01 of 28.0. -/
theorem c8_a_equals_b_minus_co (masses : List ℚ) (outA outB : List Ion)
    (hA : aGenerate masses 1 none false = .ok outA)
    (hB : bGenerate masses 1 (some []) false = .ok outB) :
    outA.length = outB.length ∧
    (∀ (i : Nat) (hiA : i < outA.length) (hiB : i < outB.length),
        (outA.get ⟨i, hiA⟩).mass = (outB.get ⟨i, hiB⟩).mass - mCO ∧
        (outA.get ⟨i, hiA⟩).pos = (outB.get ⟨i, hiB⟩).pos) ∧
    |mCO - 28| < 1 / 100 := by
  rw [aGenerate_charge1] at hA
  rw [bGenerate_charge1] at hB
  have hA2 : outA = aBaseList 0 masses.dropLast := by
    simpa using hA.symm
  have hB2 : outB = bBaseList 0 masses.dropLast := by
    simpa using hB.symm
  subst hA2
  subst hB2
  refine ⟨by rw [aBaseList_length, bBaseList_length], ?_, ?_⟩
  · intro i hiA hiB
    exact base_series_offset _ 0 i hiA hiB
  · rw [abs_lt]
    constructor <;> norm_num [mCO]

/-- C8 witness: the offset relation evaluated on the two-mass list
`[10, 20]`, whose truncated base series has a single position. -/
theorem c8_witness :
    ([⟨(10 : ℚ) + mH - mCO, "a1[+]", 1⟩] : List Ion).length
        = ([⟨(10 : ℚ) + mH, "b1[+]", 1⟩] : List Ion).length ∧
    (∀ (i : Nat) (hiA : i < ([⟨(10 : ℚ) + mH - mCO, "a1[+]", 1⟩] : List Ion).length)
        (hiB : i < ([⟨(10 : ℚ) + mH, "b1[+]", 1⟩] : List Ion).length),
        (([⟨(10 : ℚ) + mH - mCO, "a1[+]", 1⟩] : List Ion).get ⟨i, hiA⟩).mass
          = (([⟨(10 : ℚ) + mH, "b1[+]", 1⟩] : List Ion).get ⟨i, hiB⟩).mass - mCO ∧
        (([⟨(10 : ℚ) + mH - mCO, "a1[+]", 1⟩] : List Ion).get ⟨i, hiA⟩).pos
          = (([⟨(10 : ℚ) + mH, "b1[+]", 1⟩] : List Ion).get ⟨i, hiB⟩).pos) ∧
    |mCO - 28| < 1 / 100 :=
  c8_a_equals_b_minus_co [10, 20] _ _
    (by rw [aGenerate_charge1]; rfl)
    (by rw [bGenerate_charge1]; rfl)

/-- Helper: every precursor neutral-loss ion label starts with the two
characters of `[M`. -/
theorem precursorLossIons_labels (mass : ℚ) (cs : Nat) (sym : String)
    (seqLen : Nat) : ∀ (nls : List NeutralLoss) (l : List Ion),
    precursorLossIons mass cs sym seqLen nls = .ok l →
    ∀ i ∈ l, i.label.data.take 2 = ['[', 'M'] := by
  intro nls
  induction nls with
  | nil =>
      intro l h i hi
      simp only [precursorLossIons, Except.ok.injEq] at h
      subst h
      simp at hi
  | cons nl rest ih =>
      intro l h i hi
      simp only [precursorLossIons] at h
      rcases hm : lossMass nl with e | lm <;> simp only [hm] at h
      · exact absurd h (by simp)
      · rcases hr : precursorLossIons mass cs sym seqLen rest with e | tail <;>
          simp only [hr] at h
        · exact absurd h (by simp)
        · simp only [Except.ok.injEq] at h
          subst h
          rcases List.mem_cons.mp hi with rfl | hi2
          · simp [String.data_append]
          · exact ih tail hr i hi2

/-- Helper: with no terminal iTRAQ8plex modification, no ion of a
precursor charge-state block has a label starting with the two characters
of `M-`. -/
theorem precursorBlock_no_it8 (mass : ℚ) (seqLen : Nat) (mods : List ModSite)
    (nls : List NeutralLoss) (radical : Bool) (cs : Nat) (blk : List Ion)
    (h : precursorBlock mass seqLen mods nls radical cs = .ok blk)
    (hno : hasTermIT8 mods = false) :
    ∀ i ∈ blk, i.label.data.take 2 ≠ ['M', '-'] := by
  intro i hi
  simp only [precursorBlock] at h
  rcases hl : precursorLossIons mass cs (chargeSymbol radical cs) seqLen nls
    with e | lossPart <;> simp only [hl] at h
  · exact absurd h (by simp)
  · simp only [Except.ok.injEq] at h
    subst h
    simp only [hno, Bool.false_eq_true, if_false, List.append_nil,
               List.mem_append, List.mem_singleton] at hi
    rcases hi with (rfl | hrad) | hloss
    · simp [String.data_append]
    · rcases hb : radical with _ | _
      · rw [hb] at hrad
        simp at hrad
      · rw [hb] at hrad
        simp only [if_true] at hrad
        rcases List.mem_singleton.mp hrad with rfl
        simp [String.data_append]
    · rw [precursorLossIons_labels mass cs (chargeSymbol radical cs) seqLen
            nls lossPart hl i hloss]
      decide

/-- Helper: with no terminal iTRAQ8plex modification, no ion of the whole
precursor loop has a label starting with the two characters of `M-`. -/
theorem precursorGo_no_it8 (mass : ℚ) (seqLen : Nat) (mods : List ModSite)
    (nls : List NeutralLoss) (radical : Bool) (hno : hasTermIT8 mods = false) :
    ∀ (fuel cs : Nat) (out : List Ion),
      precursorGo mass seqLen mods nls radical cs fuel = .ok out →
      ∀ i ∈ out, i.label.data.take 2 ≠ ['M', '-'] := by
  intro fuel
  induction fuel with
  | zero =>
      intro cs out h i hi
      simp only [precursorGo, Except.ok.injEq] at h
      subst h
      simp at hi
  | succ n ih =>
      intro cs out h i hi
      simp only [precursorGo] at h
      rcases hb : precursorBlock mass seqLen mods nls radical cs
        with e | blk <;> simp only [hb] at h
      · exact absurd h (by simp)
      · rcases hr : precursorGo mass seqLen mods nls radical (cs + 1) n
          with e | rest2 <;> simp only [hr] at h
        · exact absurd h (by simp)
        · simp only [Except.ok.injEq] at h
          subst h
          rcases List.mem_append.mp hi with hi1 | hi2
          · exact precursorBlock_no_it8 mass seqLen mods nls radical cs blk
              hb hno i hi1
          · exact ih (cs + 1) rest2 hr i hi2

/-- Helper: with a terminal iTRAQ8plex modification, each precursor
charge-state block contains its `M-iT8` ion. -/
theorem precursorBlock_it8_mem (mass : ℚ) (seqLen : Nat) (mods : List ModSite)
    (nls : List NeutralLoss) (radical : Bool) (cs : Nat) (blk : List Ion)
    (h : precursorBlock mass seqLen mods nls radical cs = .ok blk)
    (hyes : hasTermIT8 mods = true) :
    (⟨(mass - mTag) / (cs : ℚ) + mH,
      "M-iT8[" ++ chargeSymbol radical cs ++ "]", seqLen⟩ : Ion) ∈ blk := by
  simp only [precursorBlock] at h
  rcases hl : precursorLossIons mass cs (chargeSymbol radical cs) seqLen nls
    with e | lossPart <;> simp only [hl] at h
  · exact absurd h (by simp)
  · simp only [Except.ok.injEq] at h
    subst h
    simp [hyes, List.mem_append]

/-- Helper: with a terminal iTRAQ8plex modification, the precursor loop
starting at charge state `cs` contains the `M-iT8` ion of every later
charge state it covers. -/
theorem precursorGo_it8_mem (mass : ℚ) (seqLen : Nat) (mods : List ModSite)
    (nls : List NeutralLoss) (radical : Bool) (hyes : hasTermIT8 mods = true) :
    ∀ (fuel cs k : Nat) (out : List Ion),
      precursorGo mass seqLen mods nls radical cs fuel = .ok out → k < fuel →
      (⟨(mass - mTag) / ((cs + k : Nat) : ℚ) + mH,
        "M-iT8[" ++ chargeSymbol radical (cs + k) ++ "]", seqLen⟩ : Ion) ∈ out := by
  intro fuel
  induction fuel with
  | zero =>
      intro cs k out h hk
      exact absurd hk (by omega)
  | succ n ih =>
      intro cs k out h hk
      simp only [precursorGo] at h
      rcases hb : precursorBlock mass seqLen mods nls radical cs
        with e | blk <;> simp only [hb] at h
      · exact absurd h (by simp)
      · rcases hr : precursorGo mass seqLen mods nls radical (cs + 1) n
          with e | rest2 <;> simp only [hr] at h
        · exact absurd h (by simp)
        · simp only [Except.ok.injEq] at h
          subst h
          cases k with
          | zero =>
              simp only [Nat.add_zero]
              exact List.mem_append_left _
                (precursorBlock_it8_mem mass seqLen mods nls radical cs blk
                  hb hyes)
          | succ k2 =>
              have hmem := ih (cs + 1) k2 rest2 hr (by omega)
              have hcs : cs + 1 + k2 = cs + (k2 + 1) := by omega
              rw [hcs] at hmem
              exact List.mem_append_right _ hmem

/-- C6: the precursor generator emits, for every charge state `cs` from 1
to the peptide charge, the extra ion `M-iT8` with mass
`(peptideMass − tagMass) / cs + protonMass` exactly when some
modification named `iTRAQ8plex` sits at a terminus (`site` equal to
`nterm` or `cterm`); with no such modification, no emitted ion even has a
label starting with `M-`. -/
theorem c6_precursor_it8_iff_terminal_tag (mass : ℚ) (charge seqLen : Nat)
    (mods : List ModSite) (nls : Option (List NeutralLoss)) (radical : Bool)
    (out : List Ion)
    (h : precursorGenerate mass charge seqLen mods nls radical = .ok out) :
    (hasTermIT8 mods = true → ∀ cs, 1 ≤ cs → cs ≤ charge →
       (⟨(mass - mTag) / (cs : ℚ) + mH,
         "M-iT8[" ++ chargeSymbol radical cs ++ "]", seqLen⟩ : Ion) ∈ out) ∧
    (hasTermIT8 mods = false →
       ∀ i ∈ out, i.label.data.take 2 ≠ ['M', '-']) := by
  simp only [precursorGenerate] at h
  constructor
  · intro hyes cs h1 h2
    have hmem := precursorGo_it8_mem mass seqLen mods _ radical hyes charge 1
      (cs - 1) out h (by omega)
    have hcs : 1 + (cs - 1) = cs := by omega
    rw [hcs] at hmem
    exact hmem
  · intro hno
    exact precursorGo_no_it8 mass seqLen mods _ radical hno charge 1 out h

/-- C6 witness: a peptide of mass 100 with an N-terminal iTRAQ8plex
modification, charge 1 and no losses produces the `M-iT8` ion. -/
theorem c6_witness :
    (⟨((100 : ℚ) - mTag) / ((1 : Nat) : ℚ) + mH,
      "M-iT8[" ++ chargeSymbol false 1 ++ "]", 3⟩ : Ion) ∈
      ([⟨(100 : ℚ) / ((1 : Nat) : ℚ) + mH, "[M+H][+]", 3⟩,
        ⟨((100 : ℚ) - mTag) / ((1 : Nat) : ℚ) + mH, "M-iT8[+]", 3⟩] :
        List Ion) :=
  (c6_precursor_it8_iff_terminal_tag 100 1 3
      [⟨304.20536, .str "nterm", "iTRAQ8plex"⟩] (some []) false _
      (by simp [precursorGenerate, precursorGo, precursorBlock,
                precursorLossIons, chargeSymbol, hasTermIT8])).1
    (by decide) 1 (by norm_num) (by norm_num)

end Pepfrag
